import Mathlib

/-!
Verification of the markapp delivery-payroll engine (`app/models.py`,
`app/views.py`, `app/admin.py`).

Modelling conventions:
* All currency values are integers counting cents (the Django columns are
  `DecimalField(max_digits=10, decimal_places=2)`, i.e. fixed-point with two
  fractional digits), so `200.00` is represented as `20000`.
* `Decimal` division (`loading_amount / Decimal(loading_count)`) followed by
  storage into a 2-decimal-place column is modelled by `divCents`, which
  rounds the exact quotient to the nearest cent.  All concrete inputs used
  below stay away from half-cent ties, where backends differ.
* Database tables are lists of rows.  The `unique_together` constraints of
  `PayrollManager` (`staff`, `delivery`) and `MonthlyPayment` are expressed
  by the `wellFormed` predicate (no two rows share a key) and
  `update_or_create` by the `upsert` function, which replaces the (unique)
  matching row in place or appends a fresh one.
* `PayrollManager` rows reach the delivery date through the
  `delivery__date__range` join; the embedding denormalises that join by
  storing the delivery date on the ledger line.
-/

namespace Markapp

/-- `Staff.ROLE_CHOICES` / `StaffAssignment.role`: the two payable roles. -/
inductive Role where
  | turnboy : Role
  | loader : Role
deriving DecidableEq, Repr

/-- One row of `StaffAssignment`: which staff member worked a delivery, in
which capacity, and whether they helped with loading. -/
structure StaffAssignment where
  staffId : Nat
  role : Role
  helped_loading : Bool
deriving DecidableEq, Repr

/-- `StaffAssignment.clean`: loaders always have `helped_loading` forced to
`True` before the row is persisted. -/
def cleanAssignment (a : StaffAssignment) : StaffAssignment :=
  if a.role = Role.loader then { a with helped_loading := true } else a

/-- `StaffAssignment.save`: calls `clean` and then persists the row. -/
def saveAssignment (a : StaffAssignment) : StaffAssignment :=
  cleanAssignment a

/-- A `Delivery` row together with its `staffassignment_set`, in the order
the recompute loop iterates over it. -/
structure Delivery where
  deliveryId : Nat
  date : Nat
  turnboy_payment_rate : Int
  loading_amount : Int
  assignments : List StaffAssignment
deriving DecidableEq, Repr

/-- `Delivery.get_loaders()`: the distinct staff members having an
assignment with `helped_loading=True` on this delivery. -/
def loaderStaff (d : Delivery) : List Nat :=
  ((d.assignments.filter (·.helped_loading)).map (·.staffId)).dedup

/-- `len(instance.get_loaders())` as used by the recompute signal handler. -/
def loadingCount (d : Delivery) : Nat :=
  (loaderStaff d).length

/-- `Delivery.total_loader_count()`: the number of assignments (not distinct
staff) with `helped_loading=True`. -/
def total_loader_count (d : Delivery) : Nat :=
  (d.assignments.filter (·.helped_loading)).length

/-- `Decimal` division stored into a 2-decimal-place column: the exact
quotient of `a` cents by `n`, rounded to the nearest cent (see
`divCents_eq_round`), written with integer floor division so that concrete
instances compute. -/
def divCents (a : Int) (n : Nat) : Int :=
  (2 * a + n) / (2 * (n : Int))

/-- `Delivery.per_loader_amount()`: loading money split over
`total_loader_count` (note: the recompute handler uses `loadingCount`
instead). -/
def per_loader_amount (d : Delivery) : Int :=
  if total_loader_count d = 0 then 0 else divCents d.loading_amount (total_loader_count d)

/-- One `PayrollManager` row (a payroll-ledger line); `date` is the date of
the related delivery. -/
structure LedgerLine where
  staffId : Nat
  deliveryId : Nat
  date : Nat
  role_pay : Int
  loader_pay : Int
  total_pay : Int
deriving DecidableEq, Repr

/-- The `unique_together ('staff', 'delivery')` key of a ledger line. -/
def keyOf (l : LedgerLine) : Nat × Nat :=
  (l.staffId, l.deliveryId)

/-- The body of the recompute loop in `update_payroll_manager`: role pay is
the delivery's turnboy rate for turnboys and zero otherwise, loader pay is
the loading amount divided by `len(get_loaders())` when this assignment
helped loading, and `PayrollManager.save` stores the sum as `total_pay`. -/
def mkLine (d : Delivery) (cnt : Nat) (a : StaffAssignment) : LedgerLine :=
  let role_pay : Int := if a.role = Role.turnboy then d.turnboy_payment_rate else 0
  let loader_pay : Int :=
    if a.helped_loading ∧ 0 < cnt then divCents d.loading_amount cnt else 0
  { staffId := a.staffId, deliveryId := d.deliveryId, date := d.date,
    role_pay := role_pay, loader_pay := loader_pay,
    total_pay := role_pay + loader_pay }

abbrev Ledger := List LedgerLine

/-- `PayrollManager.objects.update_or_create(staff=..., delivery=..., defaults=...)`:
replace the (by `unique_together` unique) row with this key, or append a new
row if none exists. -/
def upsert : Ledger → LedgerLine → Ledger
  | [], nl => [nl]
  | l :: ls, nl => if keyOf l = keyOf nl then nl :: ls else l :: upsert ls nl

/-- `update_payroll_manager` on a `post_save` of a delivery: one
`update_or_create` per staff assignment, with the loader pool divided by the
number of distinct loading helpers. -/
def recompute (L : Ledger) (d : Delivery) : Ledger :=
  (d.assignments.map (mkLine d (loadingCount d))).foldl upsert L

/-- `update_payroll_manager` on `post_delete` of a delivery:
`PayrollManager.objects.filter(delivery=instance).delete()`. -/
def onDeliveryDeleted (L : Ledger) (did : Nat) : Ledger :=
  L.filter (fun l => decide (l.deliveryId ≠ did))

/-- `PayrollManager.objects.filter(delivery=...)`. -/
def getLedgerLines (L : Ledger) (did : Nat) : Ledger :=
  L.filter (fun l => decide (l.deliveryId = did))

/-- `update_payroll_on_staff_assignment_change`: after any staff-assignment
save or delete it calls `update_payroll_manager(Delivery, delivery)` with no
delete signal, i.e. a plain recompute of that delivery. -/
def onAssignmentChanged (L : Ledger) (d : Delivery) : Ledger :=
  recompute L d

/-- First row of the ledger with the given (staff, delivery) key. -/
def findLine : Ledger → Nat × Nat → Option LedgerLine
  | [], _ => none
  | l :: ls, k => if keyOf l = k then some l else findLine ls k

/-- Keys of all ledger rows, in table order. -/
def ledgerKeys (L : Ledger) : List (Nat × Nat) :=
  L.map keyOf

/-- The `unique_together ('staff', 'delivery')` database constraint: no two
rows of the table share a key. -/
def wellFormed (L : Ledger) : Prop :=
  (ledgerKeys L).Nodup

instance : DecidablePred wellFormed := fun L =>
  inferInstanceAs (Decidable ((ledgerKeys L).Nodup))

/-- Last element of the list with the given key, mirroring that a later
iteration of the recompute loop overwrites an earlier upsert of the same
(staff, delivery) key. -/
def lastMatch : List LedgerLine → Nat × Nat → Option LedgerLine
  | [], _ => none
  | l :: ls, k =>
    match lastMatch ls k with
    | some x => some x
    | none => if keyOf l = k then some l else none

/-- Last assignment of the given staff member in the iteration order of the
delivery's assignment set. -/
def lastAssignmentOf : List StaffAssignment → Nat → Option StaffAssignment
  | [], _ => none
  | a :: as_, s =>
    match lastAssignmentOf as_ s with
    | some x => some x
    | none => if a.staffId = s then some a else none

/-- Sum of `loader_pay` over a delivery's ledger lines. -/
def loaderPaySum (L : Ledger) (did : Nat) : Int :=
  ((getLedgerLines L did).map (·.loader_pay)).sum

/-- The ledger line that claim C1 predicts for one assignment, written from
the claim's own words: the loader pool is divided by the number of
assignments with `helped_loading=true` (`total_loader_count`), not by the
number of distinct helping staff. -/
def claimedLineC1 (d : Delivery) (a : StaffAssignment) : LedgerLine :=
  let role_pay : Int := if a.role = Role.turnboy then d.turnboy_payment_rate else 0
  let loader_pay : Int :=
    if a.helped_loading ∧ 0 < total_loader_count d then
      divCents d.loading_amount (total_loader_count d)
    else 0
  { staffId := a.staffId, deliveryId := d.deliveryId, date := d.date,
    role_pay := role_pay, loader_pay := loader_pay,
    total_pay := role_pay + loader_pay }

/-- A `PaymentPeriod` row (`MonthlyPayment` has the same shape with the
period replaced by year and month). -/
structure PeriodRow where
  staffId : Nat
  period_start : Nat
  period_end : Nat
  role_payment : Int
  loader_payment : Int
  total_payment : Int
  is_paid : Bool
  payment_date : Option Nat
deriving DecidableEq, Repr

/-- `PaymentPeriod.save` / `MonthlyPayment.save`: `total_payment` is always
recomputed as `role_payment + loader_payment`. -/
def savePeriodRow (r : PeriodRow) : PeriodRow :=
  { r with total_payment := r.role_payment + r.loader_payment }

/-- `PayrollManager.objects.filter(staff=staff, delivery__date__range=...)`. -/
def periodLines (L : Ledger) (sid lo hi : Nat) : Ledger :=
  L.filter (fun l => decide (l.staffId = sid) && decide (lo ≤ l.date) && decide (l.date ≤ hi))

/-- `aggregate(role_payment=Sum('role_pay'))` over the filtered rows. -/
def aggregateRolePay (L : Ledger) (sid lo hi : Nat) : Int :=
  ((periodLines L sid lo hi).map (·.role_pay)).sum

/-- `aggregate(loader_payment=Sum('loader_pay'))` over the filtered rows. -/
def aggregateLoaderPay (L : Ledger) (sid lo hi : Nat) : Int :=
  ((periodLines L sid lo hi).map (·.loader_pay)).sum

/-- `aggregate(total_payment=Sum('total_pay'))` over the filtered rows. -/
def aggregateTotalPay (L : Ledger) (sid lo hi : Nat) : Int :=
  ((periodLines L sid lo hi).map (·.total_pay)).sum

/-- `PaymentPeriod.objects.update_or_create(staff=..., period_start=...,
period_end=..., defaults={role_payment, loader_payment, total_payment})`:
the matching row keeps `is_paid` and `payment_date`, only the amount
defaults are written, and the model's `save` then recomputes
`total_payment`; with no matching row a fresh one is created with the
field defaults `is_paid=False`, `payment_date=None`. -/
def upsertPeriod : List PeriodRow → Nat → Nat → Nat → Int → Int → Int → List PeriodRow
  | [], sid, ps, pe, role, loader, total =>
    let fresh : PeriodRow :=
      { staffId := sid, period_start := ps, period_end := pe,
        role_payment := role, loader_payment := loader, total_payment := total,
        is_paid := false, payment_date := none }
    [savePeriodRow fresh]
  | r :: rs, sid, ps, pe, role, loader, total =>
    if r.staffId = sid ∧ r.period_start = ps ∧ r.period_end = pe then
      let upd : PeriodRow :=
        { r with
          role_payment := role, loader_payment := loader, total_payment := total }
      savePeriodRow upd :: rs
    else r :: upsertPeriod rs sid ps pe role loader total

/-- The period-payroll materialization (`period_payroll`, `create_payment_period`
branch): aggregate the staff member's ledger lines over the date range and
upsert the `PaymentPeriod` row. -/
def materializePeriod (rows : List PeriodRow) (L : Ledger) (sid ps pe : Nat) :
    List PeriodRow :=
  upsertPeriod rows sid ps pe (aggregateRolePay L sid ps pe)
    (aggregateLoaderPay L sid ps pe) (aggregateTotalPay L sid ps pe)

/-- First `PaymentPeriod` row for the given staff member and period. -/
def findPeriod : List PeriodRow → Nat → Nat → Nat → Option PeriodRow
  | [], _, _, _ => none
  | r :: rs, sid, ps, pe =>
    if r.staffId = sid ∧ r.period_start = ps ∧ r.period_end = pe then some r
    else findPeriod rs sid ps pe

/-- `mark_period_paid` (and the `mark_paid` branches of the payroll views):
set `is_paid=True` and `payment_date=today`, then `save` (which recomputes
`total_payment` from the two parts). -/
def markPeriodPaid (r : PeriodRow) (today : Nat) : PeriodRow :=
  savePeriodRow { r with is_paid := true, payment_date := some today }

/-- `mark_as_unpaid` (admin action): `queryset.update(is_paid=False,
payment_date=None)`, touching no other column. -/
def markPeriodUnpaid (r : PeriodRow) : PeriodRow :=
  { r with is_paid := false, payment_date := none }

/-! ### Concrete database states used for witnesses and counterexamples -/

/-- One staff member (id 7) assigned twice to the same delivery, once as
turnboy and once as loader, both with `helped_loading=true`; loading amount
1000.00, turnboy rate 200.00. -/
def dC1 : Delivery :=
  { deliveryId := 11, date := 5, turnboy_payment_rate := 20000,
    loading_amount := 100000,
    assignments := [⟨7, Role.turnboy, true⟩, ⟨7, Role.loader, true⟩] }

/-- Scenario B: loading amount 1000.00, rate 200.00, two turnboys (ids 1, 2)
both with `helped_loading=true`. -/
def dB : Delivery :=
  { deliveryId := 12, date := 6, turnboy_payment_rate := 20000,
    loading_amount := 100000,
    assignments := [⟨1, Role.turnboy, true⟩, ⟨2, Role.turnboy, true⟩] }

/-- Delivery 20 with two helping turnboys, before a staff-assignment
deletion. -/
def d20 : Delivery :=
  { deliveryId := 20, date := 3, turnboy_payment_rate := 20000,
    loading_amount := 100000,
    assignments := [⟨1, Role.turnboy, true⟩, ⟨2, Role.turnboy, true⟩] }

/-- Delivery 20 after staff 2's assignment has been deleted. -/
def d21 : Delivery :=
  { d20 with assignments := [⟨1, Role.turnboy, true⟩] }

/-- Loading amount 1000.00 split among three helpers: 1000/3 does not fall
on a cent boundary. -/
def dC3 : Delivery :=
  { deliveryId := 30, date := 4, turnboy_payment_rate := 20000,
    loading_amount := 100000,
    assignments := [⟨1, Role.turnboy, true⟩, ⟨2, Role.turnboy, true⟩,
      ⟨3, Role.turnboy, true⟩] }

/-- A delivery with a negative loading amount (-100.00). -/
def dNeg : Delivery :=
  { deliveryId := 40, date := 9, turnboy_payment_rate := 20000,
    loading_amount := -10000,
    assignments := [⟨1, Role.turnboy, true⟩] }

/-- A ledger line for delivery 40 as it stood before the invalid edit. -/
def priorLine : LedgerLine :=
  { staffId := 1, deliveryId := 40, date := 9, role_pay := 20000,
    loader_pay := 5000, total_pay := 25000 }

/-- Staff member 9 holding both a turnboy and a loader assignment on
delivery 50. -/
def dC10 : Delivery :=
  { deliveryId := 50, date := 7, turnboy_payment_rate := 20000,
    loading_amount := 100000,
    assignments := [⟨9, Role.turnboy, true⟩, ⟨9, Role.loader, true⟩] }

/-- A small ledger used to exercise delivery deletion: lines for deliveries
60 and 61. -/
def ledgerC5 : Ledger :=
  [ { staffId := 1, deliveryId := 60, date := 2, role_pay := 20000,
      loader_pay := 0, total_pay := 20000 },
    { staffId := 2, deliveryId := 61, date := 2, role_pay := 20000,
      loader_pay := 100000, total_pay := 120000 },
    { staffId := 2, deliveryId := 60, date := 2, role_pay := 0,
      loader_pay := 100000, total_pay := 100000 } ]

/-- A paid `PaymentPeriod` row for staff 3. -/
def rowC7 : PeriodRow :=
  { staffId := 3, period_start := 10, period_end := 20, role_payment := 11111,
    loader_payment := 22222, total_payment := 33333, is_paid := true,
    payment_date := some 21 }

/-- A ledger line for staff 3 inside the period of `rowC7`. -/
def lineC7 : LedgerLine :=
  { staffId := 3, deliveryId := 70, date := 15, role_pay := 20000,
    loader_pay := 50000, total_pay := 70000 }

/-- `divCents` is rounding of the exact quotient to the nearest cent. -/
theorem divCents_eq_round (a : Int) (n : Nat) (h : 0 < n) :
    divCents a n = round ((a : ℚ) / (n : ℚ)) := by
  rw [round_eq, divCents]
  have hx : (a : ℚ) / (n : ℚ) + 1 / 2 = ((2 * a + n : ℤ) : ℚ) / ((2 * n : ℕ) : ℚ) := by
    have hn : ((n : ℚ)) ≠ 0 := by positivity
    push_cast
    field_simp
    ring
  rw [hx, Rat.floor_intCast_div_natCast]
  push_cast
  ring_nf

/-- When the division is exact, `divCents` returns the exact quotient. -/
theorem divCents_exact (q : Int) (n : Nat) (h : 0 < n) :
    divCents ((n : Int) * q) n = q := by
  rw [divCents]
  have h2 : 2 * ((n : Int) * q) + n = (n : Int) * (2 * q + 1) := by ring
  have h3 : 2 * (n : Int) = (n : Int) * 2 := by ring
  rw [h2, h3, Int.mul_ediv_mul_of_pos _ _ (by exact_mod_cast h)]
  omega

/-! ### Behaviour of `upsert` (`update_or_create`) -/

theorem keys_upsert (L : Ledger) (nl : LedgerLine) :
    ledgerKeys (upsert L nl) =
      if keyOf nl ∈ ledgerKeys L then ledgerKeys L else ledgerKeys L ++ [keyOf nl] := by
  induction L with
  | nil => simp [upsert, ledgerKeys]
  | cons l ls ih =>
    by_cases h : keyOf l = keyOf nl
    · simp [upsert, ledgerKeys, h]
    · have hne : keyOf nl ≠ keyOf l := fun hc => h hc.symm
      have hstep : ledgerKeys (upsert (l :: ls) nl) = keyOf l :: ledgerKeys (upsert ls nl) := by
        simp [upsert, h, ledgerKeys]
      have hck : ledgerKeys (l :: ls) = keyOf l :: ledgerKeys ls := rfl
      rw [hstep, ih, hck]
      by_cases hm : keyOf nl ∈ ledgerKeys ls
      · have hc : keyOf nl ∈ keyOf l :: ledgerKeys ls := List.mem_cons_of_mem _ hm
        simp [hm, hc]
      · have hc : keyOf nl ∉ keyOf l :: ledgerKeys ls := by
          simp [List.mem_cons, hne, hm]
        simp [hm, hc]

theorem wellFormed_upsert (L : Ledger) (nl : LedgerLine) (h : wellFormed L) :
    wellFormed (upsert L nl) := by
  unfold wellFormed at *
  rw [keys_upsert]
  by_cases hm : keyOf nl ∈ ledgerKeys L
  · simpa [hm]
  · simp only [hm, if_neg hm]
    simpa [List.nodup_append] using ⟨h, hm⟩

theorem findLine_upsert_self (L : Ledger) (nl : LedgerLine) :
    findLine (upsert L nl) (keyOf nl) = some nl := by
  induction L with
  | nil => simp [upsert, findLine]
  | cons l ls ih =>
    by_cases h : keyOf l = keyOf nl
    · simp [upsert, findLine, h]
    · simp [upsert, findLine, h, ih]

theorem findLine_upsert_other (L : Ledger) (nl : LedgerLine) (k : Nat × Nat)
    (h : k ≠ keyOf nl) : findLine (upsert L nl) k = findLine L k := by
  induction L with
  | nil => simp [upsert, findLine, Ne.symm h]
  | cons l ls ih =>
    by_cases hl : keyOf l = keyOf nl
    · have hnk : keyOf nl ≠ k := Ne.symm h
      simp [upsert, findLine, hl, hnk]
    · simp only [upsert, if_neg hl]
      by_cases hk : keyOf l = k
      · simp [findLine, hk]
      · simp [findLine, hk, ih]

theorem findLine_eq_none_of_not_mem (L : Ledger) (k : Nat × Nat)
    (h : k ∉ ledgerKeys L) : findLine L k = none := by
  induction L with
  | nil => simp [findLine]
  | cons l ls ih =>
    simp only [ledgerKeys, List.map_cons, List.mem_cons, not_or] at h
    simp [findLine, Ne.symm h.1, ih (by simpa [ledgerKeys] using h.2)]

/-- Two well-formed tables with the same keys in the same order and the same
lookup function are equal row for row. -/
theorem ledger_ext (L1 L2 : Ledger) (hwf : wellFormed L1)
    (hk : ledgerKeys L1 = ledgerKeys L2)
    (hf : ∀ k, findLine L1 k = findLine L2 k) : L1 = L2 := by
  induction L1 generalizing L2 with
  | nil =>
    cases L2 with
    | nil => rfl
    | cons l ls => simp [ledgerKeys] at hk
  | cons l1 t1 ih =>
    cases L2 with
    | nil => simp [ledgerKeys] at hk
    | cons l2 t2 =>
      simp only [ledgerKeys, List.map_cons, List.cons.injEq] at hk
      have hhead : l1 = l2 := by
        have h1 := hf (keyOf l1)
        simp [findLine, ← hk.1] at h1
        exact h1
      subst hhead
      have hwf0 : (keyOf l1 :: List.map keyOf t1).Nodup := by
        simpa [wellFormed, ledgerKeys] using hwf
      have hwf' : wellFormed t1 := by
        simpa [wellFormed, ledgerKeys] using (List.nodup_cons.mp hwf0).2
      have hnot : keyOf l1 ∉ ledgerKeys t1 := by
        simpa [ledgerKeys] using (List.nodup_cons.mp hwf0).1
      refine congrArg (l1 :: ·) (ih t2 hwf' (by simpa [ledgerKeys] using hk.2) ?_)
      intro k
      by_cases hkk : k = keyOf l1
      · subst hkk
        have hnot2 : keyOf l1 ∉ ledgerKeys t2 := by
          simp only [ledgerKeys] at hnot ⊢
          rw [← hk.2]
          exact hnot
        rw [findLine_eq_none_of_not_mem _ _ hnot, findLine_eq_none_of_not_mem _ _ hnot2]
      · have h1 := hf k
        simp only [findLine, if_neg (Ne.symm hkk)] at h1
        exact h1

/-! ### Behaviour of a sequence of upserts (the recompute loop) -/

theorem mem_keys_upsert_self (L : Ledger) (nl : LedgerLine) :
    keyOf nl ∈ ledgerKeys (upsert L nl) := by
  rw [keys_upsert]
  by_cases hm : keyOf nl ∈ ledgerKeys L
  · rwa [if_pos hm]
  · rw [if_neg hm]
    exact List.mem_append_right _ (List.mem_singleton_self _)

theorem mem_keys_foldl_of_mem (S : List LedgerLine) (L : Ledger) (k : Nat × Nat)
    (h : k ∈ ledgerKeys L) : k ∈ ledgerKeys (S.foldl upsert L) := by
  induction S generalizing L with
  | nil => simpa using h
  | cons nl S' ih =>
    refine ih (upsert L nl) ?_
    rw [keys_upsert]
    by_cases hm : keyOf nl ∈ ledgerKeys L
    · rwa [if_pos hm]
    · rw [if_neg hm]
      exact List.mem_append_left _ h

theorem mem_keys_foldl (S : List LedgerLine) (L : Ledger) (nl : LedgerLine)
    (h : nl ∈ S) : keyOf nl ∈ ledgerKeys (S.foldl upsert L) := by
  induction S generalizing L with
  | nil => cases h
  | cons m S' ih =>
    rw [List.foldl_cons]
    rcases List.mem_cons.mp h with rfl | hmem
    · exact mem_keys_foldl_of_mem S' (upsert L nl) _ (mem_keys_upsert_self L nl)
    · exact ih (upsert L m) hmem

theorem keys_foldl_of_all_mem (S : List LedgerLine) (L : Ledger)
    (h : ∀ nl ∈ S, keyOf nl ∈ ledgerKeys L) :
    ledgerKeys (S.foldl upsert L) = ledgerKeys L := by
  induction S generalizing L with
  | nil => rfl
  | cons m S' ih =>
    have hm : keyOf m ∈ ledgerKeys L := h m (List.mem_cons_self m S')
    have hkeys : ledgerKeys (upsert L m) = ledgerKeys L := by
      rw [keys_upsert]
      simp [hm]
    rw [List.foldl_cons, ih (upsert L m) (fun nl hnl => by
      rw [hkeys]
      exact h nl (List.mem_cons_of_mem m hnl)), hkeys]

theorem wellFormed_foldl (S : List LedgerLine) (L : Ledger) (h : wellFormed L) :
    wellFormed (S.foldl upsert L) := by
  induction S generalizing L with
  | nil => exact h
  | cons m S' ih => exact ih (upsert L m) (wellFormed_upsert L m h)

theorem findLine_foldl_of_no_match (S : List LedgerLine) (L : Ledger) (k : Nat × Nat)
    (h : lastMatch S k = none) :
    findLine (S.foldl upsert L) k = findLine L k := by
  induction S generalizing L with
  | nil => rfl
  | cons m S' ih =>
    simp only [lastMatch] at h
    cases hl : lastMatch S' k with
    | some x => rw [hl] at h; cases h
    | none =>
      rw [hl] at h
      by_cases hk : keyOf m = k
      · rw [if_pos hk] at h
        cases h
      · rw [List.foldl_cons, ih (upsert L m) hl]
        exact findLine_upsert_other L m k (fun hc => hk hc.symm)

theorem findLine_foldl_of_lastMatch (S : List LedgerLine) (L : Ledger) (k : Nat × Nat)
    (nl : LedgerLine) (h : lastMatch S k = some nl) :
    findLine (S.foldl upsert L) k = some nl := by
  induction S generalizing L with
  | nil => simp [lastMatch] at h
  | cons m S' ih =>
    rw [List.foldl_cons]
    simp only [lastMatch] at h
    cases hl : lastMatch S' k with
    | some x =>
      rw [hl] at h
      cases h
      exact ih (upsert L m) hl
    | none =>
      rw [hl] at h
      by_cases hk : keyOf m = k
      · rw [if_pos hk] at h
        cases h
        rw [findLine_foldl_of_no_match S' (upsert L nl) k hl, ← hk]
        exact findLine_upsert_self L nl
      · rw [if_neg hk] at h
        cases h

/-! ### The recompute loop on a fresh ledger -/

theorem upsert_of_fresh (L : Ledger) (nl : LedgerLine)
    (h : keyOf nl ∉ ledgerKeys L) : upsert L nl = L ++ [nl] := by
  induction L with
  | nil => rfl
  | cons l ls ih =>
    simp only [ledgerKeys, List.map_cons, List.mem_cons, not_or] at h
    rw [upsert, if_neg (Ne.symm h.1), ih (by simpa [ledgerKeys] using h.2)]
    rfl

theorem foldl_upsert_fresh (S : List LedgerLine) (L : Ledger)
    (hdis : ∀ nl ∈ S, keyOf nl ∉ ledgerKeys L)
    (hnd : (S.map keyOf).Nodup) : S.foldl upsert L = L ++ S := by
  induction S generalizing L with
  | nil => simp
  | cons m S' ih =>
    rw [List.foldl_cons, upsert_of_fresh L m (hdis m (List.mem_cons_self m S'))]
    rw [ih (L ++ [m]) ?_ (by simpa using (List.nodup_cons.mp hnd).2)]
    · simp
    · intro nl hnl
      have h1 : keyOf nl ∉ ledgerKeys L := hdis nl (List.mem_cons_of_mem m hnl)
      have h2 : keyOf nl ≠ keyOf m := by
        have := (List.nodup_cons.mp hnd).1
        intro hc
        exact this (hc ▸ List.mem_map_of_mem keyOf hnl)
      simp only [ledgerKeys, List.map_append, List.map_cons, List.map_nil,
        List.mem_append, List.mem_singleton]
      rintro (hc | hc)
      · exact h1 (by simpa [ledgerKeys] using hc)
      · exact h2 hc

theorem keyOf_mkLine (d : Delivery) (c : Nat) (a : StaffAssignment) :
    keyOf (mkLine d c a) = (a.staffId, d.deliveryId) := rfl

theorem recompute_nil_eq_map (d : Delivery)
    (hnd : (d.assignments.map (·.staffId)).Nodup) :
    recompute [] d = d.assignments.map (mkLine d (loadingCount d)) := by
  rw [recompute]
  rw [foldl_upsert_fresh _ _ (by simp [ledgerKeys]) ?_]
  · simp
  · have : (d.assignments.map (mkLine d (loadingCount d))).map keyOf =
        (d.assignments.map (·.staffId)).map (fun s => (s, d.deliveryId)) := by
      simp only [List.map_map]
      rfl
    rw [this]
    exact hnd.map (fun s t h => by simpa using congrArg Prod.fst h)

theorem lastMatch_map_mkLine (d : Delivery) (c : Nat) (as_ : List StaffAssignment)
    (s : Nat) :
    lastMatch (as_.map (mkLine d c)) (s, d.deliveryId) =
      (lastAssignmentOf as_ s).map (mkLine d c) := by
  induction as_ with
  | nil => rfl
  | cons a as' ih =>
    simp only [List.map_cons, lastMatch, lastAssignmentOf, ih]
    cases lastAssignmentOf as' s with
    | some x => rfl
    | none =>
      simp only [Option.map_none]
      by_cases h : a.staffId = s
      · rw [keyOf_mkLine, if_pos (by simp [h]), if_pos h]
        rfl
      · rw [keyOf_mkLine, if_neg (by simp [h]), if_neg h]
        rfl

theorem lastAssignmentOf_mem (as_ : List StaffAssignment) (s : Nat)
    (x : StaffAssignment) (h : lastAssignmentOf as_ s = some x) :
    x ∈ as_ ∧ x.staffId = s := by
  induction as_ with
  | nil => cases h
  | cons c as' ih =>
    simp only [lastAssignmentOf] at h
    cases hc : lastAssignmentOf as' s with
    | some y =>
      rw [hc] at h
      cases h
      exact ⟨List.mem_cons_of_mem c (ih hc).1, (ih hc).2⟩
    | none =>
      rw [hc] at h
      by_cases hcs : c.staffId = s
      · rw [if_pos hcs] at h
        cases h
        exact ⟨List.mem_cons_self _ _, hcs⟩
      · rw [if_neg hcs] at h
        cases h

theorem lastAssignmentOf_of_nodup (as_ : List StaffAssignment) (a : StaffAssignment)
    (hnd : (as_.map (·.staffId)).Nodup) (ha : a ∈ as_) :
    lastAssignmentOf as_ a.staffId = some a := by
  induction as_ with
  | nil => cases ha
  | cons b as' ih =>
    simp only [List.map_cons, List.nodup_cons] at hnd
    rcases List.mem_cons.mp ha with rfl | hmem
    · have hnone : lastAssignmentOf as' a.staffId = none := by
        cases hl : lastAssignmentOf as' a.staffId with
        | none => rfl
        | some x =>
          exfalso
          have hx := lastAssignmentOf_mem as' a.staffId x hl
          exact hnd.1 (hx.2 ▸ List.mem_map_of_mem (·.staffId) hx.1)
      simp [lastAssignmentOf, hnone]
    · simp only [lastAssignmentOf, ih hnd.2 hmem]

theorem loadingCount_eq_total_loader_count (d : Delivery)
    (hnd : (d.assignments.map (·.staffId)).Nodup) :
    loadingCount d = total_loader_count d := by
  rw [loadingCount, loaderStaff, total_loader_count]
  have hsub : ((d.assignments.filter (·.helped_loading)).map (·.staffId)).Sublist
      (d.assignments.map (·.staffId)) :=
    (List.filter_sublist d.assignments).map (·.staffId)
  rw [List.dedup_eq_self.mpr (hnd.sublist hsub)]
  exact List.length_map _ _

theorem getLedgerLines_map_mkLine (d : Delivery) (c : Nat)
    (as_ : List StaffAssignment) :
    getLedgerLines (as_.map (mkLine d c)) d.deliveryId = as_.map (mkLine d c) := by
  rw [getLedgerLines, List.filter_eq_self]
  intro l hl
  obtain ⟨a, _, rfl⟩ := List.mem_map.mp hl
  simp [mkLine]

theorem sum_loader_pay_map (d : Delivery) (c : Nat) (as_ : List StaffAssignment) :
    ((as_.map (mkLine d c)).map (·.loader_pay)).sum =
      ((as_.filter (·.helped_loading)).length : Int) *
        (if 0 < c then divCents d.loading_amount c else 0) := by
  induction as_ with
  | nil => simp
  | cons a as' ih =>
    by_cases h : a.helped_loading = true
    · by_cases hc : 0 < c
      · simp only [List.map_cons, List.sum_cons, ih, List.filter_cons, h,
          mkLine, true_and, if_pos hc, if_true, List.length_cons]
        push_cast
        ring
      · simp only [List.map_cons, List.sum_cons, ih, List.filter_cons, h,
          mkLine, true_and, if_neg hc, if_true, List.length_cons]
        push_cast
        ring
    · simp only [List.map_cons, List.sum_cons, ih, List.filter_cons, h, mkLine]
      have hx : ¬ (a.helped_loading = true ∧ 0 < c) := fun hx => h hx.1
      simp [hx, h]

/-! ### Claim theorems -/

/-- Claim C1, as stated, is false on the code: with one staff member holding
both a turnboy and a loader assignment (both `helped_loading=true`,
loading 1000.00, rate 200.00), the claim predicts a loader share of
1000.00/2 = 500.00 per assignment, but the recompute divides by the number
of distinct helping staff (`len(get_loaders()) = 1`) and keeps only the
last assignment's line, so no assignment gets its claimed line. -/
theorem C1_claim_false :
    ¬ (∀ a ∈ dC1.assignments,
        findLine (recompute [] dC1) (a.staffId, dC1.deliveryId) =
          some (claimedLineC1 dC1 a)) := by
  decide

/-- Claim C1 (amended): restricted to deliveries in which each staff member
holds at most one assignment, the recompute on delivery save produces, for
every assignment, a ledger line whose `role_pay` is the delivery's
`turnboy_payment_rate` for role turnboy and 0 otherwise, whose `loader_pay`
is `loading_amount` divided by the number of assignments with
`helped_loading=true` (rounded to the cent) when this assignment helped
loading and that number is positive and 0 otherwise, and whose `total_pay`
is their sum. -/
theorem C1_per_assignment_line (d : Delivery)
    (hnd : (d.assignments.map (·.staffId)).Nodup) :
    ∀ a ∈ d.assignments,
      findLine (recompute [] d) (a.staffId, d.deliveryId) =
        some (claimedLineC1 d a) := by
  intro a ha
  have hlast : lastAssignmentOf d.assignments a.staffId = some a :=
    lastAssignmentOf_of_nodup d.assignments a hnd ha
  have hlm : lastMatch (d.assignments.map (mkLine d (loadingCount d)))
      (a.staffId, d.deliveryId) = some (mkLine d (loadingCount d) a) := by
    rw [lastMatch_map_mkLine, hlast]
    rfl
  rw [recompute]
  rw [findLine_foldl_of_lastMatch _ _ _ _ hlm]
  have hc : loadingCount d = total_loader_count d :=
    loadingCount_eq_total_loader_count d hnd
  rw [mkLine, claimedLineC1, hc]

/-- Witness for C1: Scenario B — loading 1000.00, rate 200.00, two turnboys
both helping — gives each staff member a line 200.00 / 500.00 / 700.00. -/
theorem C1_scenarioB_witness :
    (dB.assignments.map (·.staffId)).Nodup ∧
    findLine (recompute [] dB) (1, 12) =
      some { staffId := 1, deliveryId := 12, date := 6, role_pay := 20000,
             loader_pay := 50000, total_pay := 70000 } ∧
    findLine (recompute [] dB) (2, 12) =
      some { staffId := 2, deliveryId := 12, date := 6, role_pay := 20000,
             loader_pay := 50000, total_pay := 70000 } := by
  refine ⟨by decide, ?_, ?_⟩
  · exact (C1_per_assignment_line dB (by decide) ⟨1, Role.turnboy, true⟩
      (by decide)).trans (by decide)
  · exact (C1_per_assignment_line dB (by decide) ⟨2, Role.turnboy, true⟩
      (by decide)).trans (by decide)

/-- Claim C2 fails on the code: after staff 2's assignment on delivery 20 is
deleted and the signal handler recomputes, staff 2's ledger line is still
present with its stale values (the recompute only upserts and never prunes
rows of unassigned staff), so the ledger staff set is not the assignment
staff set. -/
theorem C2_orphan_line_retained :
    findLine (onAssignmentChanged (recompute [] d20) d21) (2, 20) =
      some { staffId := 2, deliveryId := 20, date := 3, role_pay := 20000,
             loader_pay := 50000, total_pay := 70000 } ∧
    ¬ (∀ l ∈ getLedgerLines (onAssignmentChanged (recompute [] d20) d21) 20,
        ∃ a ∈ d21.assignments, a.staffId = l.staffId) := by
  decide

/-- Claim C3, as stated, is false on the code: splitting 1000.00 among three
helpers stores 333.33 per line, and the loader-pay total 999.99 differs
from the loading amount (the code performs no residual-cent
reconciliation). -/
theorem C3_conservation_fails :
    loaderPaySum (recompute [] dC3) dC3.deliveryId ≠ dC3.loading_amount := by
  decide

/-- Claim C3 (amended): when each staff member holds at most one assignment
and the number of loading helpers divides the loading amount evenly in
cents, the loader-pay total over the delivery's ledger lines equals the
loading amount exactly; otherwise each line holds the per-cent-rounded
share and the total can drift from the loading amount. -/
theorem C3_conservation_exact (d : Delivery)
    (hnd : (d.assignments.map (·.staffId)).Nodup)
    (hpos : 0 < total_loader_count d)
    (hdvd : (total_loader_count d : Int) ∣ d.loading_amount) :
    loaderPaySum (recompute [] d) d.deliveryId = d.loading_amount := by
  obtain ⟨q, hq⟩ := hdvd
  rw [loaderPaySum, recompute_nil_eq_map d hnd, getLedgerLines_map_mkLine,
    sum_loader_pay_map, loadingCount_eq_total_loader_count d hnd, if_pos hpos]
  rw [total_loader_count] at hq hpos ⊢
  rw [hq, divCents_exact q _ hpos]

/-- Witness for C3: 1000.00 split between two helpers sums back to exactly
1000.00. -/
theorem C3_conservation_witness :
    (dB.assignments.map (·.staffId)).Nodup ∧ 0 < total_loader_count dB ∧
    (total_loader_count dB : Int) ∣ dB.loading_amount ∧
    loaderPaySum (recompute [] dB) dB.deliveryId = dB.loading_amount := by
  refine ⟨by decide, by decide, ⟨50000, by decide⟩, ?_⟩
  exact C3_conservation_exact dB (by decide) (by decide) ⟨50000, by decide⟩

/-- Claim C4 fails on the code: the recompute performs no validation at all.
With `loading_amount = -100.00` it does not raise and does mutate the
ledger: the prior line for (staff 1, delivery 40) is overwritten with a
negative loader pay. -/
theorem C4_claim_false :
    recompute [priorLine] dNeg ≠ [priorLine] ∧
    findLine (recompute [priorLine] dNeg) (1, 40) =
      some { staffId := 1, deliveryId := 40, date := 9, role_pay := 20000,
             loader_pay := -10000, total_pay := 10000 } := by
  decide

/-- Claim C4 (amended): a negative `loading_amount` is not rejected — no
`ValidationError` exists in this path — and the recompute proceeds exactly
as for any other delivery, upserting a line per assignment computed from
the negative amount. -/
theorem C4_negative_amount_processed (d : Delivery)
    (_hneg : d.loading_amount < 0)
    (hnd : (d.assignments.map (·.staffId)).Nodup) :
    ∀ a ∈ d.assignments,
      findLine (recompute [] d) (a.staffId, d.deliveryId) =
        some (mkLine d (loadingCount d) a) := by
  intro a ha
  have hlast : lastAssignmentOf d.assignments a.staffId = some a :=
    lastAssignmentOf_of_nodup d.assignments a hnd ha
  have hlm : lastMatch (d.assignments.map (mkLine d (loadingCount d)))
      (a.staffId, d.deliveryId) = some (mkLine d (loadingCount d) a) := by
    rw [lastMatch_map_mkLine, hlast]
    rfl
  rw [recompute, findLine_foldl_of_lastMatch _ _ _ _ hlm]

/-- Witness for C4: the delivery with loading amount -100.00 gets a line
with loader pay -100.00. -/
theorem C4_negative_witness :
    dNeg.loading_amount < 0 ∧ (dNeg.assignments.map (·.staffId)).Nodup ∧
    findLine (recompute [] dNeg) (1, 40) =
      some { staffId := 1, deliveryId := 40, date := 9, role_pay := 20000,
             loader_pay := -10000, total_pay := 10000 } := by
  refine ⟨by decide, by decide, ?_⟩
  exact (C4_negative_amount_processed dNeg (by decide) (by decide)
    ⟨1, Role.turnboy, true⟩ (by decide)).trans (by decide)

/-- Claim C5: deleting a delivery removes every ledger line of that delivery
(a later query for them returns the empty list) and leaves the lines of
every other delivery untouched. -/
theorem C5_delete_removes_delivery_lines (L : Ledger) (did : Nat) :
    getLedgerLines (onDeliveryDeleted L did) did = [] ∧
    ∀ did2, did2 ≠ did →
      getLedgerLines (onDeliveryDeleted L did) did2 = getLedgerLines L did2 := by
  constructor
  · induction L with
    | nil => rfl
    | cons l ls ih =>
      by_cases h : l.deliveryId = did
      · simp only [onDeliveryDeleted, getLedgerLines] at ih ⊢
        simp [List.filter_cons, h, ih]
      · simp only [onDeliveryDeleted, getLedgerLines] at ih ⊢
        simp [List.filter_cons, h, ih]
  · intro did2 hne
    induction L with
    | nil => rfl
    | cons l ls ih =>
      by_cases h : l.deliveryId = did
      · have e1 : onDeliveryDeleted (l :: ls) did = onDeliveryDeleted ls did := by
          simp [onDeliveryDeleted, List.filter_cons, h]
        have h2 : l.deliveryId ≠ did2 := fun hc => hne ((hc ▸ h).symm ▸ rfl)
        rw [e1, ih]
        simp [getLedgerLines, List.filter_cons, h2]
      · have e1 : onDeliveryDeleted (l :: ls) did = l :: onDeliveryDeleted ls did := by
          simp [onDeliveryDeleted, List.filter_cons, h]
        by_cases h3 : l.deliveryId = did2
        · rw [e1]
          simp only [getLedgerLines, List.filter_cons, h3, decide_True, if_true]
          simp only [getLedgerLines] at ih
          rw [ih]
        · rw [e1]
          simp only [getLedgerLines, List.filter_cons, h3, decide_False]
          exact ih

/-- Witness for C5: deleting delivery 60 from the sample ledger empties its
lines and leaves delivery 61's line unchanged. -/
theorem C5_delete_witness :
    getLedgerLines (onDeliveryDeleted ledgerC5 60) 60 = [] ∧
    getLedgerLines (onDeliveryDeleted ledgerC5 60) 61 = getLedgerLines ledgerC5 61 := by
  exact ⟨(C5_delete_removes_delivery_lines ledgerC5 60).1,
    (C5_delete_removes_delivery_lines ledgerC5 60).2 61 (by decide)⟩

/-- Claim C6: recomputing a delivery twice in direct succession, starting
from any ledger satisfying the (staff, delivery) uniqueness constraint,
yields exactly the ledger of a single recompute. -/
theorem C6_recompute_idempotent (L : Ledger) (d : Delivery) (h : wellFormed L) :
    recompute (recompute L d) d = recompute L d := by
  have hwfR : wellFormed (recompute L d) := wellFormed_foldl _ L h
  apply ledger_ext _ _ (wellFormed_foldl _ _ hwfR)
  · exact keys_foldl_of_all_mem _ _ (fun nl hnl => mem_keys_foldl _ L nl hnl)
  · intro k
    cases hk : lastMatch (d.assignments.map (mkLine d (loadingCount d))) k with
    | some nl =>
      rw [findLine_foldl_of_lastMatch _ _ _ _ hk]
      exact (findLine_foldl_of_lastMatch _ L k nl hk).symm
    | none =>
      exact findLine_foldl_of_no_match _ _ _ hk

/-- Witness for C6 on a concrete ledger and delivery. -/
theorem C6_idempotent_witness :
    wellFormed ledgerC5 ∧ recompute (recompute ledgerC5 dB) dB = recompute ledgerC5 dB :=
  ⟨by decide, C6_recompute_idempotent ledgerC5 dB (by decide)⟩

theorem upsertPeriod_spec (rows : List PeriodRow) (sid ps pe : Nat)
    (A B T : Int) (r : PeriodRow) (h : findPeriod rows sid ps pe = some r) :
    findPeriod (upsertPeriod rows sid ps pe A B T) sid ps pe =
      some { r with role_payment := A, loader_payment := B, total_payment := A + B } ∧
    upsertPeriod (upsertPeriod rows sid ps pe A B T) sid ps pe A B T =
      upsertPeriod rows sid ps pe A B T := by
  induction rows with
  | nil => cases h
  | cons r0 rs ih =>
    by_cases hm : r0.staffId = sid ∧ r0.period_start = ps ∧ r0.period_end = pe
    · rw [findPeriod, if_pos hm] at h
      cases h
      constructor
      · simp [upsertPeriod, findPeriod, savePeriodRow, hm.1, hm.2.1, hm.2.2]
      · simp [upsertPeriod, savePeriodRow, hm.1, hm.2.1, hm.2.2]
    · rw [findPeriod, if_neg hm] at h
      obtain ⟨h1, h2⟩ := ih h
      constructor
      · simp only [upsertPeriod, if_neg hm, findPeriod]
        exact h1
      · simp only [upsertPeriod, if_neg hm]
        exact congrArg (r0 :: ·) h2

/-- Claim C7: materializing a period summary over an existing row replaces
its role, loader and total amounts with the fresh aggregates (the saved
total being role + loader) while keeping `is_paid` and `payment_date`
exactly as they were, and materializing twice against the same ledger
produces the same row list. -/
theorem C7_period_materialize (rows : List PeriodRow) (L : Ledger)
    (sid ps pe : Nat) (r : PeriodRow)
    (h : findPeriod rows sid ps pe = some r) :
    findPeriod (materializePeriod rows L sid ps pe) sid ps pe =
      some { r with
             role_payment := aggregateRolePay L sid ps pe,
             loader_payment := aggregateLoaderPay L sid ps pe,
             total_payment := aggregateRolePay L sid ps pe +
               aggregateLoaderPay L sid ps pe } ∧
    materializePeriod (materializePeriod rows L sid ps pe) L sid ps pe =
      materializePeriod rows L sid ps pe :=
  upsertPeriod_spec rows sid ps pe _ _ _ r h

/-- Witness for C7: the paid row keeps `is_paid=true` and its payment date
while its amounts are refreshed from the ledger, and a second
materialization changes nothing. -/
theorem C7_period_witness :
    findPeriod [rowC7] 3 10 20 = some rowC7 ∧
    findPeriod (materializePeriod [rowC7] [lineC7] 3 10 20) 3 10 20 =
      some { staffId := 3, period_start := 10, period_end := 20,
             role_payment := 20000, loader_payment := 50000,
             total_payment := 70000, is_paid := true, payment_date := some 21 } ∧
    materializePeriod (materializePeriod [rowC7] [lineC7] 3 10 20) [lineC7] 3 10 20 =
      materializePeriod [rowC7] [lineC7] 3 10 20 := by
  have h := C7_period_materialize [rowC7] [lineC7] 3 10 20 rowC7 (by decide)
  exact ⟨by decide, h.1.trans (by decide), h.2⟩

/-- Claim C8: mark-paid sets `is_paid` and stamps today's date, mark-unpaid
clears both, and neither touches the three amount columns (given the row
invariant `total = role + loader`, which every save path maintains). -/
theorem C8_mark_transitions (r : PeriodRow) (today : Nat)
    (h : r.total_payment = r.role_payment + r.loader_payment) :
    (markPeriodPaid r today).is_paid = true ∧
    (markPeriodPaid r today).payment_date = some today ∧
    (markPeriodPaid r today).role_payment = r.role_payment ∧
    (markPeriodPaid r today).loader_payment = r.loader_payment ∧
    (markPeriodPaid r today).total_payment = r.total_payment ∧
    (markPeriodUnpaid r).is_paid = false ∧
    (markPeriodUnpaid r).payment_date = none ∧
    (markPeriodUnpaid r).role_payment = r.role_payment ∧
    (markPeriodUnpaid r).loader_payment = r.loader_payment ∧
    (markPeriodUnpaid r).total_payment = r.total_payment := by
  refine ⟨rfl, rfl, rfl, rfl, ?_, rfl, rfl, rfl, rfl, rfl⟩
  simp [markPeriodPaid, savePeriodRow, h]

/-- Witness for C8 on a concrete row whose total is the sum of its parts. -/
theorem C8_mark_witness :
    rowC7.total_payment = rowC7.role_payment + rowC7.loader_payment ∧
    (markPeriodPaid rowC7 25).is_paid = true ∧
    (markPeriodPaid rowC7 25).payment_date = some 25 ∧
    (markPeriodPaid rowC7 25).total_payment = rowC7.total_payment ∧
    (markPeriodUnpaid rowC7).is_paid = false ∧
    (markPeriodUnpaid rowC7).payment_date = none ∧
    (markPeriodUnpaid rowC7).total_payment = rowC7.total_payment := by
  have h := C8_mark_transitions rowC7 25 (by decide)
  exact ⟨by decide, h.1, h.2.1, h.2.2.2.2.1, h.2.2.2.2.2.1,
    h.2.2.2.2.2.2.1, h.2.2.2.2.2.2.2.2.2⟩

/-- Claim C9: every staff assignment persisted through the model's save
path has `helped_loading = true` whenever its role is loader, regardless of
the flag the caller supplied. -/
theorem C9_loader_forced_helped (a : StaffAssignment) (h : a.role = Role.loader) :
    (saveAssignment a).helped_loading = true := by
  simp [saveAssignment, cleanAssignment, h]

/-- Witness for C9: a loader assignment saved with `helped_loading=false`
comes out with the flag forced to true. -/
theorem C9_loader_witness :
    (⟨4, Role.loader, false⟩ : StaffAssignment).role = Role.loader ∧
    (saveAssignment ⟨4, Role.loader, false⟩).helped_loading = true :=
  ⟨rfl, C9_loader_forced_helped ⟨4, Role.loader, false⟩ rfl⟩

/-- Claim C10: starting from a ledger satisfying the uniqueness constraint,
the recompute keeps at most one line per (staff, delivery) key, and the
line of a staff member holding several assignments on the delivery carries
exactly the pay computed from the last assignment processed, not any
combination of the assignments. -/
theorem C10_one_line_last_assignment (L : Ledger) (d : Delivery) (s : Nat)
    (a : StaffAssignment) (hwf : wellFormed L)
    (hlast : lastAssignmentOf d.assignments s = some a) :
    wellFormed (recompute L d) ∧
    findLine (recompute L d) (s, d.deliveryId) =
      some (mkLine d (loadingCount d) a) := by
  constructor
  · exact wellFormed_foldl _ L hwf
  · have hlm : lastMatch (d.assignments.map (mkLine d (loadingCount d)))
        (s, d.deliveryId) = some (mkLine d (loadingCount d) a) := by
      rw [lastMatch_map_mkLine, hlast]
      rfl
    exact findLine_foldl_of_lastMatch _ _ _ _ hlm

/-- Witness for C10: staff 9 has a turnboy and a loader assignment on
delivery 50; the single resulting line is the loader assignment's
(role 0 / loader 1000.00), not the combined pay of both assignments. -/
theorem C10_last_wins_witness :
    wellFormed (recompute [] dC10) ∧
    findLine (recompute [] dC10) (9, 50) =
      some { staffId := 9, deliveryId := 50, date := 7, role_pay := 0,
             loader_pay := 100000, total_pay := 100000 } := by
  have h := C10_one_line_last_assignment [] dC10 9 ⟨9, Role.loader, true⟩
    (by decide) (by decide)
  exact ⟨h.1, h.2.trans (by decide)⟩

end Markapp
